import Mathlib

/-!
Verification development for the Lambda2api relay.

The repository contains three parallel copies of the same core
(`lambdachat.ts`, a proxy `main.ts` variant with `handleChatCompletions`,
and a standalone `deno-deploy-lambda-chat-proxy.ts` here called `MainTs`).
This file gives a shallow embedding of the pieces the specification talks
about:

* the Frame Extractor `extractJsonObjects` (identical in `lambdachat.ts`
  and the proxy variant), modelled as a left-to-right scan over a list of
  characters;
* the Event Classifier and Token Relay loop of `lambdaChatStream`;
* the model resolver `resolveModel` with its alias table;
* the Response Translator (incremental SSE chunks and aggregate object);
* the standalone `MainTs` copy's line-based stream loop, its
  `createStreamResponse`, `getModel` and `handleChatCompletion` front end.

Machine strings are modelled as `List Char` where the scan itself is
verified and as Lean `String` elsewhere; the source's `start` slice index
is replaced by `cur`, the (reversed) accumulated characters of the slice
`buffer.slice(start, i+1)`, which it determines: every character from
position `start` up to the current position belongs to that slice, so the
accumulated list and the slice coincide.  Emitted objects are kept most
recent first in `objs` and reversed at the end.
-/

/-- The opening brace character `{`. -/
def braceOpen : Char := '\x7b'

/-- The closing brace character `}`. -/
def braceClose : Char := '\x7d'

/-- Scanner state of `extractJsonObjects`:
`depth` is the brace-depth counter (a JS number, so `Int`: stray closing
braces drive it negative), `inStr` the "inside a string literal" flag,
`esc` the one-token look-behind escape flag, `cur = some l` corresponds to
`start !== -1` with `l` the reversed characters of `buffer.slice(start, i)`,
and `objs` the emitted object substrings, most recent first. -/
structure ScanState where
  depth : Int
  inStr : Bool
  esc : Bool
  cur : Option (List Char)
  objs : List (List Char)
deriving Repr, DecidableEq

/-- Append the current character to the pending slice, if one is open
(the source keeps every character from `start` onward inside the slice). -/
def pushCur (st : ScanState) (c : Char) : ScanState :=
  { st with cur := st.cur.map (fun l => c :: l) }

/-- One iteration of the `for` loop of `extractJsonObjects`, processing
character `c`.  Mirrors the source branch for branch:
string mode with escape look-behind first, then quote, `{` (recording a
new slice start when `depth === 0`), `}` (emitting the slice when the
depth returns to `0` and a slice is open), and a fall-through that only
advances the position. -/
def scanStep (st : ScanState) (c : Char) : ScanState :=
  if st.inStr then
    let st' := pushCur st c
    if st.esc then { st' with esc := false }
    else if c = '\\' then { st' with esc := true }
    else if c = '"' then { st' with inStr := false }
    else st'
  else if c = '"' then { pushCur st c with inStr := true }
  else if c = braceOpen then
    if st.depth = 0 then { st with depth := 1, cur := some [c] }
    else { pushCur st c with depth := st.depth + 1 }
  else if c = braceClose then
    match st.cur with
    | some l =>
      if st.depth - 1 = 0 then
        { st with depth := st.depth - 1, cur := none,
                  objs := (c :: l).reverse :: st.objs }
      else { st with depth := st.depth - 1, cur := some (c :: l) }
    | none => { st with depth := st.depth - 1 }
  else pushCur st c

/-- Run the scanner over a list of characters. -/
def feed (st : ScanState) (l : List Char) : ScanState :=
  l.foldl scanStep st

/-- The scanner state at function entry: `depth = 0`, not in a string, no
escape pending, `start = -1`, nothing emitted. -/
def initSt : ScanState := ⟨0, false, false, none, []⟩

/-- `extractJsonObjects(buffer)` from `lambdachat.ts` (the proxy variant
additionally `JSON.parse`s each emitted substring; the scan and the
remainder logic are identical).  Returns the extracted object substrings
in emission order together with the remainder
`depth > 0 && start !== -1 ? buffer.slice(start) : ""`. -/
def extractJsonObjects (buffer : List Char) : List (List Char) × List Char :=
  let st := feed initSt buffer
  (st.objs.reverse,
    match st.cur with
    | some l => if 0 < st.depth then l.reverse else []
    | none => [])

/-- The Token Relay iteration: each upstream read appends the decoded
fragment to the carried remainder and runs the extractor on it; extracted
objects accumulate, the remainder is carried to the next read. -/
def processChunks (chunks : List (List Char)) : List (List Char) × List Char :=
  chunks.foldl
    (fun acc c =>
      let r := extractJsonObjects (acc.2 ++ c)
      (acc.1 ++ r.1, r.2))
    ([], [])

/-- The body of a string literal as the scanner understands it: a
sequence of escape pairs (`\` followed by any character) and plain
characters that are neither `"` nor `\`. -/
inductive StrBody : List Char → Prop
  | nil : StrBody []
  | esc (c : Char) (b : List Char) : StrBody b → StrBody ('\\' :: c :: b)
  | chr (c : Char) (b : List Char) : c ≠ '"' → c ≠ '\\' → StrBody b →
      StrBody (c :: b)

/-- Brace-balanced frames.  `JSeq false b` says `b` is a well-formed
object body: a sequence of complete string literals, nested objects and
free characters (anything except `"`, `{`, `}`).  `JSeq true s` says `s`
is one well-formed top-level object `{ body }`.  Every JSON object string
is generated by this grammar (string values may contain braces and
escaped quotes), so a statement over `JSeq true` covers all well-formed
JSON objects. -/
inductive JSeq : Bool → List Char → Prop
  | nil : JSeq false []
  | str (bs rest : List Char) : StrBody bs → JSeq false rest →
      JSeq false ('"' :: (bs ++ '"' :: rest))
  | chr (c : Char) (rest : List Char) : c ≠ '"' → c ≠ braceOpen →
      c ≠ braceClose → JSeq false rest → JSeq false (c :: rest)
  | objItem (b rest : List Char) : JSeq false b → JSeq false rest →
      JSeq false (braceOpen :: (b ++ braceClose :: rest))
  | obj (b : List Char) : JSeq false b →
      JSeq true (braceOpen :: (b ++ [braceClose]))

/-- `pend` is the carried remainder state relative to the list `osT` of
objects still to come: either nothing is pending, or `pend` is a proper
nonempty front part of the next object. -/
def PendOK (pend : List Char) (osT : List (List Char)) : Prop :=
  pend = [] ∨ ∃ o t rr, osT = o :: t ∧ pend ++ rr = o ∧ pend ≠ [] ∧ rr ≠ []

/-- Position `i` holds an opening brace seen at top level: the scan of
the characters before `i` ends at depth `0` outside any string, and the
character at `i` is `{`.  The source's `start` variable is exactly the
last such position. -/
def TopBrace (b : List Char) (i : Nat) : Prop :=
  (feed initSt (b.take i)).depth = 0 ∧
    (feed initSt (b.take i)).inStr = false ∧
    (b.drop i).head? = some braceOpen

instance (b : List Char) (i : Nat) : Decidable (TopBrace b i) :=
  inferInstanceAs (Decidable (_ ∧ _ ∧ _))

/-- `token.replace(/\u0000/g, "")`: remove every NUL character
(shared by all three copies of the relay loop). -/
def stripNul (s : String) : String :=
  String.mk (s.data.filter (fun c => c != '\x00'))

/-- The value of an alias table entry: `string | string[]`. -/
inductive AliasVal
  | one (m : String)
  | many (ms : List String)
deriving Repr, DecidableEq

namespace ProxyMain

/-- `DEFAULT_MODEL` of the proxy variant. -/
def DEFAULT_MODEL : String := "deepseek-r1"

/-- `CANONICAL_MODELS` (the `Array.from(new Set([...]))` wrapper is a
no-op here: the listed ids are pairwise distinct). -/
def CANONICAL_MODELS : List String :=
  ["deepseek-llama3.3-70b",
   "deepseek-r1",
   "deepseek-r1-0528",
   "apriel-5b-instruct",
   "hermes-3-llama-3.1-405b-fp8",
   "hermes3-405b-fp8-128k",
   "llama3.1-nemotron-70b-instruct",
   "lfm-40b",
   "llama3.3-70b-instruct-fp8",
   "qwen25-coder-32b-instruct",
   "deepseek-v3-0324",
   "llama-4-maverick-17b-128e-instruct-fp8",
   "llama-4-scout-17b-16e-instruct",
   "qwen3-32b-fp8"]

/-- The `MODEL_ALIASES` record, as the lookup function the source uses it
as (`MODEL_ALIASES[requested]`). -/
def MODEL_ALIASES (s : String) : Option AliasVal :=
  if s = "hermes-3" then some (.one ("hermes3-405b-fp8-128k"))
  else if s = "hermes-3-405b" then
    some (.many ["hermes3-405b-fp8-128k", "hermes-3-llama-3.1-405b-fp8"])
  else if s = "nemotron-70b" then some (.one ("llama3.1-nemotron-70b-instruct"))
  else if s = "llama-3.3-70b" then some (.one ("llama3.3-70b-instruct-fp8"))
  else if s = "qwen-2.5-coder-32b" then some (.one ("qwen25-coder-32b-instruct"))
  else if s = "llama-4-maverick" then
    some (.one ("llama-4-maverick-17b-128e-instruct-fp8"))
  else if s = "llama-4-scout" then some (.one ("llama-4-scout-17b-16e-instruct"))
  else if s = "qwen-3-32b" then some (.one ("qwen3-32b-fp8"))
  else none

/-- `randomChoice(arr) = arr[Math.floor(Math.random() * arr.length)]`.
`Math.random()` is modelled by the parameter `r` ranging over `[0, 1)`
(rationals stand in for IEEE doubles; the claims do not concern float
precision).  An out-of-range index yields `""`, as JS would yield
`undefined` — unreachable for `0 ≤ r < 1` and a nonempty array. -/
def randomChoice (r : ℚ) (arr : List String) : String :=
  arr.getD (Int.toNat ⌊r * (arr.length : ℚ)⌋) ""

/-- `resolveModel(userModel)` of the proxy variant: `userModel ||
DEFAULT_MODEL`, canonical ids pass through, aliases map (arrays via
`randomChoice`), anything else throws `Model '...' not found`. -/
def resolveModel (r : ℚ) (userModel : Option String) :
    Except String (String × String) :=
  let requested :=
    match userModel with
    | none => DEFAULT_MODEL
    | some s => if s = "" then DEFAULT_MODEL else s
  if requested ∈ CANONICAL_MODELS then .ok (requested, requested)
  else
    match MODEL_ALIASES requested with
    | some (.many ms) => .ok (requested, randomChoice r ms)
    | some (.one m) => .ok (requested, m)
    | none => .error ("Model \x27" ++ requested ++ "\x27 not found")

/-- The model-resolution contract of the specification, for one value of
the randomness source: absent/empty input resolves to the default;
canonical ids are returned unchanged; single-valued aliases map
deterministically; multi-valued aliases return a member of the candidate
set, and every member is selected by some admissible randomness value;
unmatched non-empty ids fail. -/
def ResolverSpec (r : ℚ) : Prop :=
  resolveModel r none = .ok (DEFAULT_MODEL, DEFAULT_MODEL) ∧
  resolveModel r (some ("")) = .ok (DEFAULT_MODEL, DEFAULT_MODEL) ∧
  (∀ m ∈ CANONICAL_MODELS, resolveModel r (some m) = .ok (m, m)) ∧
  (∀ a c, a ∉ CANONICAL_MODELS → MODEL_ALIASES a = some (.one c) →
    resolveModel r (some a) = .ok (a, c)) ∧
  (∀ a cs, a ∉ CANONICAL_MODELS → MODEL_ALIASES a = some (.many cs) →
    cs ≠ [] → ∃ c ∈ cs, resolveModel r (some a) = .ok (a, c)) ∧
  (∀ a cs c, a ∉ CANONICAL_MODELS → MODEL_ALIASES a = some (.many cs) →
    c ∈ cs → ∃ q : ℚ, 0 ≤ q ∧ q < 1 ∧ resolveModel q (some a) = .ok (a, c)) ∧
  (∀ s, s ≠ "" → s ∉ CANONICAL_MODELS → MODEL_ALIASES s = none →
    resolveModel r (some s) = .error ("Model \x27" ++ s ++ "\x27 not found"))

/-- A JSON value as far as the relay loop inspects it: the loop only asks
whether `obj.token` is a string. -/
inductive JVal
  | str (s : String)
  | nonString
deriving Repr, DecidableEq

/-- The fields of a parsed upstream frame that the relay loop reads.  A
field that is absent and a field holding a non-string value behave
identically under the loop's `===` comparisons, so `type` and `status`
are `Option String`. -/
structure StreamObj where
  type : Option String := none
  token : Option JVal := none
  status : Option String := none
deriving Repr, DecidableEq

/-- What the relay loop does with one classified frame. -/
inductive StreamAction
  | emit (token : String)
  | skip
  | stop
deriving Repr, DecidableEq

/-- The per-object branch of `lambdaChatStream`'s loop: `type ===
"stream"` with a string token strips NULs and yields when non-empty;
`type === "finalAnswer"` returns; keepalive / title / reasoning / unknown
frames are skipped. -/
def classifyObj (o : StreamObj) : StreamAction :=
  match o.type, o.token with
  | some t, some (JVal.str s) =>
    if t = "stream" then
      let token := stripNul s
      if token = "" then .skip else .emit token
    else if t = "finalAnswer" then .stop
    else .skip
  | some t, _ =>
    if t = "finalAnswer" then .stop else .skip
  | none, _ => .skip

/-- Run the loop body over the objects extracted from one chunk; `true`
means a `finalAnswer` returned out of the generator (objects after it in
the same chunk are not inspected). -/
def relayObjs : List StreamObj → List String × Bool
  | [] => ([], false)
  | o :: rest =>
    match classifyObj o with
    | .emit t =>
      let r := relayObjs rest
      (t :: r.1, r.2)
    | .skip => relayObjs rest
    | .stop => ([], true)

/-- The Token Relay `lambdaChatStream`, abstracted over the extractor:
its argument is the per-read list of parsed frames, its value the yielded
token sequence.  After a `finalAnswer` the generator has returned, so
later reads contribute nothing. -/
def lambdaChatStream : List (List StreamObj) → List String
  | [] => []
  | c :: cs =>
    let r := relayObjs c
    if r.2 then r.1 else r.1 ++ lambdaChatStream cs

/-- The `delta` object of an SSE chunk. -/
structure Delta where
  role : Option String := none
  content : Option String := none
deriving Repr, DecidableEq

/-- One `chat.completion.chunk` envelope. -/
structure ChatChunk where
  id : String
  object : String
  created : Nat
  model : String
  delta : Delta
  finish_reason : Option String
deriving Repr, DecidableEq

/-- One item written to the SSE stream: a chunk envelope or the
`data: [DONE]` sentinel. -/
inductive SSEItem
  | chunk (c : ChatChunk)
  | done
deriving Repr, DecidableEq

/-- The initial role-announcement chunk (`delta: { role: "assistant" }`,
`finish_reason: null`) enqueued before the upstream loop starts. -/
def roleChunk (id : String) (created : Nat) (model : String) : ChatChunk :=
  { id := id, object := "chat.completion.chunk", created := created,
    model := model, delta := { role := some ("assistant") },
    finish_reason := none }

/-- The per-token chunk (`delta: { content: token }`). -/
def tokenChunk (id : String) (created : Nat) (model : String)
    (token : String) : ChatChunk :=
  { id := id, object := "chat.completion.chunk", created := created,
    model := model, delta := { content := some token },
    finish_reason := none }

/-- The terminal chunk (`delta: {}`, `finish_reason: "stop"`). -/
def stopChunk (id : String) (created : Nat) (model : String) : ChatChunk :=
  { id := id, object := "chat.completion.chunk", created := created,
    model := model, delta := {}, finish_reason := some ("stop") }

/-- The incremental-mode output of `handleChatCompletions` for a given
upstream token sequence: role chunk, one chunk per token, terminal chunk,
sentinel — all sharing the request's `id` and `created`. -/
def streamItems (id : String) (created : Nat) (model : String)
    (tokens : List String) : List SSEItem :=
  SSEItem.chunk (roleChunk id created model) ::
    (tokens.map (fun t => SSEItem.chunk (tokenChunk id created model t)) ++
      [SSEItem.chunk (stopChunk id created model), SSEItem.done])

/-- The incremental `content` delta carried by an SSE item, if any. -/
def contentDelta : SSEItem → Option String
  | .chunk c => c.delta.content
  | .done => none

/-- The aggregate-mode completion object. -/
structure ChatCompletion where
  id : String
  object : String
  created : Nat
  model : String
  content : String
  finish_reason : String
deriving Repr, DecidableEq

/-- The aggregate-mode output of `handleChatCompletions`: `fullText`
accumulated by `fullText += token` over the same generator, rendered with
`finish_reason: "stop"`. -/
def nonStreamResponse (id : String) (created : Nat) (model : String)
    (tokens : List String) : ChatCompletion :=
  { id := id, object := "chat.completion", created := created,
    model := model, content := tokens.foldl (fun a t => a ++ t) "",
    finish_reason := "stop" }

/-- One entry of an array-of-content-parts message body: the code uses
`p.text` when it is a string and falls back to `p.content || ""`
(non-string truthy `content` values are out of the modelled input space). -/
structure ContentPart where
  text : Option String := none
  content : Option String := none
deriving Repr, DecidableEq

/-- A message `content` value: a plain string, an array of parts, or
anything else (carried as the string `JSON.stringify` would produce). -/
inductive MsgContent
  | str (s : String)
  | parts (ps : List ContentPart)
  | other (serialized : String)
deriving Repr, DecidableEq

/-- An inbound chat message. -/
structure PMsg where
  role : String
  content : MsgContent
deriving Repr, DecidableEq

/-- The text one content part contributes. -/
def partText (p : ContentPart) : String :=
  match p.text with
  | some t => t
  | none => (p.content).getD ""

/-- The text of a message body. -/
def contentText : MsgContent → String
  | .str s => s
  | .parts ps => String.join (ps.map partText)
  | .other s => s

/-- `getLastUserContent`: walk the messages from the end, take the first
with `role === "user"`, extract its text; `""` when there is none. -/
def getLastUserContent (messages : List PMsg) : String :=
  match messages.reverse.find? (fun m => m.role == "user") with
  | some m => contentText m.content
  | none => ""

/-- Where a request leaves `handleChatCompletions` before any upstream
I/O: an error response, or the point where `lambdaChatStream` (and with
it the session bootstrap) would be invoked. -/
inductive POutcome
  | errResp (status : Nat) (message : String)
  | upstream (internalModel userText : String)
deriving Repr, DecidableEq

/-- The validation front of `handleChatCompletions` (a `messages` value
that is not an array is rejected the same way as an empty one and is not
modelled separately): non-empty check, model resolution, user-text
extraction — only then is the upstream generator constructed. -/
def handleChatCompletions (r : ℚ) (model? : Option String)
    (messages : List PMsg) : POutcome :=
  if messages.isEmpty then .errResp 400 ("Messages must be a non-empty array")
  else
    match resolveModel r model? with
    | .error e => .errResp 400 e
    | .ok res =>
      let userText := getLastUserContent messages
      if userText = "" then
        .errResp 400 ("No user message found in \x27messages\x27")
      else .upstream res.2 userText

end ProxyMain

namespace MainTs

/-- `DEFAULT_MODEL` of the standalone copy. -/
def DEFAULT_MODEL : String := "deepseek-r1"

/-- `MODELS` of the standalone copy (kept verbatim, including the
duplicated `llama3.3-70b-instruct-fp8` entry — this copy has no `Set`
wrapper). -/
def MODELS : List String :=
  ["deepseek-llama3.3-70b",
   "deepseek-r1",
   "deepseek-r1-0528",
   "apriel-5b-instruct",
   "hermes-3-llama-3.1-405b-fp8",
   "hermes3-405b-fp8-128k",
   "llama3.1-nemotron-70b-instruct",
   "lfm-40b",
   "llama3.3-70b-instruct-fp8",
   "qwen25-coder-32b-instruct",
   "deepseek-v3-0324",
   "llama-4-maverick-17b-128e-instruct-fp8",
   "llama-4-scout-17b-16e-instruct",
   "llama3.3-70b-instruct-fp8",
   "qwen3-32b-fp8"]

/-- The standalone copy's `MODEL_ALIASES` record (same table). -/
def MODEL_ALIASES (s : String) : Option AliasVal :=
  if s = "hermes-3" then some (.one ("hermes3-405b-fp8-128k"))
  else if s = "hermes-3-405b" then
    some (.many ["hermes3-405b-fp8-128k", "hermes-3-llama-3.1-405b-fp8"])
  else if s = "nemotron-70b" then some (.one ("llama3.1-nemotron-70b-instruct"))
  else if s = "llama-3.3-70b" then some (.one ("llama3.3-70b-instruct-fp8"))
  else if s = "qwen-2.5-coder-32b" then some (.one ("qwen25-coder-32b-instruct"))
  else if s = "llama-4-maverick" then
    some (.one ("llama-4-maverick-17b-128e-instruct-fp8"))
  else if s = "llama-4-scout" then some (.one ("llama-4-scout-17b-16e-instruct"))
  else if s = "qwen-3-32b" then some (.one ("qwen3-32b-fp8"))
  else none

/-- `getModel(model)`: falsy input yields the default, known ids pass,
aliases map (`alias[Math.floor(Math.random() * alias.length)]` for
arrays, with `r` modelling `Math.random()`), otherwise it throws. -/
def getModel (r : ℚ) (model : String) : Except String String :=
  if model = "" then .ok DEFAULT_MODEL
  else if model ∈ MODELS then .ok model
  else
    match MODEL_ALIASES model with
    | some (.one a) => .ok a
    | some (.many as) => .ok (as.getD (Int.toNat ⌊r * (as.length : ℚ)⌋) "")
    | none => .error ("Model " ++ model ++ " not found")

/-- An inbound message for the standalone copy (it reads `content`
directly). -/
structure ChatMsg where
  role : String
  content : String
deriving Repr, DecidableEq

/-- `getLastUserMessage`: first `role === "user"` entry from the end,
else `""`. -/
def getLastUserMessage (messages : List ChatMsg) : String :=
  match messages.reverse.find? (fun m => m.role == "user") with
  | some m => m.content
  | none => ""

/-- Where a request leaves the standalone `handleChatCompletion` before
any upstream I/O. -/
inductive Outcome
  | errResp (status : Nat) (message : String)
  | upstreamCall (model userMessage : String)
deriving Repr, DecidableEq

/-- The validation front of the standalone `handleChatCompletion`: the
`messages` array check accepts any array (an absent or non-array value is
not modelled), then `getModel(userModel || DEFAULT_MODEL)` runs — a throw
is caught by the surrounding `try` and surfaces as an HTTP 500 — and only
then is the user message checked (HTTP 400 when empty); after that the
first upstream call is issued. -/
def handleChatCompletion (r : ℚ) (userModel : Option String)
    (messages : List ChatMsg) : Outcome :=
  let requested :=
    match userModel with
    | none => DEFAULT_MODEL
    | some s => if s = "" then DEFAULT_MODEL else s
  match getModel r requested with
  | .error e => .errResp 500 e
  | .ok model =>
    let userMessage := getLastUserMessage messages
    if userMessage = "" then .errResp 400 ("No user message found")
    else .upstreamCall model userMessage

/-- The fields of one parsed stream line that the standalone loop reads.
`token` models string-valued (or absent) `token` fields; a truthy
non-string token would crash the source's `.replace` and is outside the
modelled input space. -/
structure LineObj where
  type : Option String := none
  token : Option String := none
deriving Repr, DecidableEq

/-- One item written to the standalone copy's SSE stream.  Each envelope
is produced by `createStreamResponse`, which draws a fresh
`chatcmpl-<uuid>` id and a fresh timestamp per call (the id/timestamp are
not carried here; what matters for the claims is which envelopes appear
and in what order). -/
inductive SSEOut
  | envelope (delta_content : Option String) (finish_reason : Option String)
  | doneSentinel
deriving Repr, DecidableEq

/-- `createStreamResponse(content, finish)`: empty delta with
`finish_reason: "stop"` when `finish`, else a content delta with a null
finish reason. -/
def createStreamResponse (content : String) (finish : Bool) : SSEOut :=
  .envelope (if finish then none else some content)
    (if finish then some ("stop") else none)

/-- JS truthiness of the `token` field value. -/
def tokenTruthy : Option String → Bool
  | none => false
  | some s => s != ""

/-- The `for (const line of lines)` body: a stream line with a truthy
token emits its NUL-stripped text when non-empty; `finalAnswer` enqueues
the terminal envelope and `data: [DONE]`, then `break`s — which only
leaves this inner loop, so the remaining lines of the same batch are
skipped but nothing stops the outer read loop. -/
def processLines : List LineObj → List SSEOut
  | [] => []
  | o :: rest =>
    if o.type = some ("stream") ∧ tokenTruthy o.token then
      let token := stripNul (o.token.getD "")
      (if token = "" then [] else [createStreamResponse token false]) ++
        processLines rest
    else if o.type = some ("finalAnswer") then
      [createStreamResponse ("") true, .doneSentinel]
    else processLines rest

/-- The standalone copy's streaming read loop, abstracted over transport
and line splitting: each element of `batches` is the list of parsed
objects of the lines completed by one `reader.read()`.  The outer `while`
keeps reading — and keeps emitting — after an inner `break`. -/
def streamLoop (batches : List (List LineObj)) : List SSEOut :=
  batches.foldl (fun acc b => acc ++ processLines b) []

end MainTs

theorem feed_nil (st : ScanState) : feed st [] = st := rfl

theorem feed_cons (st : ScanState) (c : Char) (l : List Char) :
    feed st (c :: l) = feed (scanStep st c) l := rfl

theorem feed_append (st : ScanState) (a b : List Char) :
    feed st (a ++ b) = feed (feed st a) b := by
  simp [feed, List.foldl_append]

theorem feed_snoc (st : ScanState) (b : List Char) (c : Char) :
    feed st (b ++ [c]) = scanStep (feed st b) c := by
  rw [feed_append]; rfl

theorem scanStep_str_esc (st : ScanState) (c : Char) (h : st.inStr = true)
    (he : st.esc = true) : scanStep st c = { pushCur st c with esc := false } := by
  simp [scanStep, h, he]

theorem scanStep_str_backslash (st : ScanState) (h : st.inStr = true)
    (he : st.esc = false) :
    scanStep st '\\' = { pushCur st '\\' with esc := true } := by
  simp [scanStep, h, he]

theorem scanStep_str_quote (st : ScanState) (h : st.inStr = true)
    (he : st.esc = false) :
    scanStep st '"' = { pushCur st '"' with inStr := false } := by
  have hq : ('"' : Char) ≠ '\\' := by decide
  simp [scanStep, h, he, hq]

theorem scanStep_str_other (st : ScanState) (c : Char) (h : st.inStr = true)
    (he : st.esc = false) (h1 : c ≠ '\\') (h2 : c ≠ '"') :
    scanStep st c = pushCur st c := by
  simp [scanStep, h, he, h1, h2]

theorem scanStep_quote (st : ScanState) (h : st.inStr = false) :
    scanStep st '"' = { pushCur st '"' with inStr := true } := by
  simp [scanStep, h]

theorem scanStep_open_zero (st : ScanState) (h : st.inStr = false)
    (hd : st.depth = 0) :
    scanStep st braceOpen = { st with depth := 1, cur := some [braceOpen] } := by
  have h1 : braceOpen ≠ '"' := by decide
  simp [scanStep, h, hd, h1]

theorem scanStep_open_pos (st : ScanState) (h : st.inStr = false)
    (hd : st.depth ≠ 0) :
    scanStep st braceOpen = { pushCur st braceOpen with depth := st.depth + 1 } := by
  have h1 : braceOpen ≠ '"' := by decide
  simp [scanStep, h, hd, h1]

theorem scanStep_close_emit (st : ScanState) (l : List Char)
    (h : st.inStr = false) (hc : st.cur = some l) (hd : st.depth = 1) :
    scanStep st braceClose =
      { st with depth := st.depth - 1, cur := none,
                objs := (braceClose :: l).reverse :: st.objs } := by
  have h1 : braceClose ≠ '"' := by decide
  have h2 : braceClose ≠ braceOpen := by decide
  simp [scanStep, h, hc, hd, h1, h2]

theorem scanStep_close_push (st : ScanState) (l : List Char)
    (h : st.inStr = false) (hc : st.cur = some l) (hd : st.depth ≠ 1) :
    scanStep st braceClose =
      { st with depth := st.depth - 1, cur := some (braceClose :: l) } := by
  have h1 : braceClose ≠ '"' := by decide
  have h2 : braceClose ≠ braceOpen := by decide
  have h3 : st.depth - 1 ≠ 0 := by omega
  simp [scanStep, h, hc, h1, h2, h3]

theorem scanStep_close_none (st : ScanState) (h : st.inStr = false)
    (hc : st.cur = none) :
    scanStep st braceClose = { st with depth := st.depth - 1 } := by
  have h1 : braceClose ≠ '"' := by decide
  have h2 : braceClose ≠ braceOpen := by decide
  simp [scanStep, h, hc, h1, h2]

theorem scanStep_other (st : ScanState) (c : Char) (h : st.inStr = false)
    (h1 : c ≠ '"') (h2 : c ≠ braceOpen) (h3 : c ≠ braceClose) :
    scanStep st c = pushCur st c := by
  simp [scanStep, h, h1, h2, h3]

theorem pushCur_mk (d : Int) (iS e : Bool) (l : List Char)
    (os : List (List Char)) (c : Char) :
    pushCur ⟨d, iS, e, some l, os⟩ c = ⟨d, iS, e, some (c :: l), os⟩ := rfl

theorem feed_strBody (bs : List Char) (hb : StrBody bs) :
    ∀ (d : Int) (l : List Char) (os : List (List Char)),
    feed ⟨d, true, false, some l, os⟩ bs =
      ⟨d, true, false, some (bs.reverse ++ l), os⟩ := by
  induction hb with
  | nil => intro d l os; simp [feed]
  | esc c b hb ih =>
    intro d l os
    rw [feed_cons, scanStep_str_backslash _ rfl rfl, pushCur_mk]
    rw [feed_cons, scanStep_str_esc _ _ rfl rfl, pushCur_mk]
    rw [ih]
    simp
  | chr c b h1 h2 hb ih =>
    intro d l os
    rw [feed_cons, scanStep_str_other _ _ rfl rfl h2 h1, pushCur_mk, ih]
    simp

theorem feed_singleton (st : ScanState) (c : Char) : feed st [c] = scanStep st c := rfl

theorem feed_jseq (k : Bool) (b : List Char) (hb : JSeq k b) :
    ∀ (d : Int) (l : List Char) (os : List (List Char)), 1 ≤ d →
    feed ⟨d, false, false, some l, os⟩ b =
      ⟨d, false, false, some (b.reverse ++ l), os⟩ := by
  induction hb with
  | nil => intro d l os _; simp [feed]
  | str bs rest hbs hrest ih =>
    intro d l os hd
    have s1 : scanStep ⟨d, false, false, some l, os⟩ '"' =
        ⟨d, true, false, some ('"' :: l), os⟩ := by
      rw [scanStep_quote _ rfl, pushCur_mk]
    have s2 : scanStep ⟨d, true, false, some (bs.reverse ++ '"' :: l), os⟩ '"' =
        ⟨d, false, false, some ('"' :: (bs.reverse ++ '"' :: l)), os⟩ := by
      rw [scanStep_str_quote _ rfl rfl, pushCur_mk]
    rw [feed_cons, s1, feed_append, feed_strBody bs hbs, feed_cons, s2,
      ih _ _ _ hd]
    simp
  | chr c rest h1 h2 h3 hrest ih =>
    intro d l os hd
    have s1 : scanStep ⟨d, false, false, some l, os⟩ c =
        ⟨d, false, false, some (c :: l), os⟩ := by
      rw [scanStep_other _ _ rfl h1 h2 h3, pushCur_mk]
    rw [feed_cons, s1, ih _ _ _ hd]
    simp
  | objItem b rest hbb hrest ihb ihrest =>
    intro d l os hd
    have hd0 : d ≠ 0 := by omega
    have s1 : scanStep ⟨d, false, false, some l, os⟩ braceOpen =
        ⟨d + 1, false, false, some (braceOpen :: l), os⟩ := by
      rw [scanStep_open_pos _ rfl hd0, pushCur_mk]
    have s2 : scanStep ⟨d + 1, false, false,
        some (b.reverse ++ braceOpen :: l), os⟩ braceClose =
        ⟨d, false, false,
          some (braceClose :: (b.reverse ++ braceOpen :: l)), os⟩ := by
      have h1 : (d + 1 : Int) ≠ 1 := by omega
      rw [scanStep_close_push _ _ rfl rfl h1]
      simp
    rw [feed_cons, s1, feed_append, ihb _ _ _ (by omega), feed_cons, s2,
      ihrest _ _ _ hd]
    simp
  | obj b hbb ihb =>
    intro d l os hd
    have hd0 : d ≠ 0 := by omega
    have s1 : scanStep ⟨d, false, false, some l, os⟩ braceOpen =
        ⟨d + 1, false, false, some (braceOpen :: l), os⟩ := by
      rw [scanStep_open_pos _ rfl hd0, pushCur_mk]
    have s2 : scanStep ⟨d + 1, false, false,
        some (b.reverse ++ braceOpen :: l), os⟩ braceClose =
        ⟨d, false, false,
          some (braceClose :: (b.reverse ++ braceOpen :: l)), os⟩ := by
      have h1 : (d + 1 : Int) ≠ 1 := by omega
      rw [scanStep_close_push _ _ rfl rfl h1]
      simp
    rw [feed_cons, s1, feed_append, ihb _ _ _ (by omega), feed_singleton, s2]
    simp

theorem feed_obj_top (o : List Char) (ho : JSeq true o)
    (os : List (List Char)) :
    feed ⟨0, false, false, none, os⟩ o = ⟨0, false, false, none, o :: os⟩ := by
  cases ho with
  | obj b hbb =>
    have s1 : scanStep ⟨0, false, false, none, os⟩ braceOpen =
        ⟨1, false, false, some [braceOpen], os⟩ := by
      rw [scanStep_open_zero _ rfl rfl]
    have s2 : scanStep ⟨1, false, false,
        some (b.reverse ++ [braceOpen]), os⟩ braceClose =
        ⟨0, false, false, none,
          (braceClose :: (b.reverse ++ [braceOpen])).reverse :: os⟩ := by
      rw [scanStep_close_emit _ _ rfl rfl rfl]
      simp
    rw [feed_cons, s1, feed_append, feed_jseq false b hbb _ _ _ (by omega),
      feed_singleton, s2]
    simp

theorem jseq_true_ne_nil (o : List Char) (ho : JSeq true o) : o ≠ [] := by
  cases ho with
  | obj b hbb => simp

theorem feed_objs_flatten (os : List (List Char)) :
    (∀ o ∈ os, JSeq true o) → ∀ acc,
    feed ⟨0, false, false, none, acc⟩ os.flatten =
      ⟨0, false, false, none, os.reverse ++ acc⟩ := by
  induction os with
  | nil => intro _ acc; simp [feed]
  | cons o t ih =>
    intro h acc
    have ho : JSeq true o := h o (by simp)
    rw [List.flatten_cons, feed_append, feed_obj_top o ho,
      ih (fun x hx => h x (by simp [hx])) (o :: acc)]
    simp

theorem extract_flatten (os : List (List Char)) (h : ∀ o ∈ os, JSeq true o) :
    extractJsonObjects os.flatten = (os, []) := by
  have h2 := feed_objs_flatten os h []
  simp only [List.append_nil] at h2
  unfold extractJsonObjects
  rw [show initSt = ⟨0, false, false, none, []⟩ from rfl, h2]
  simp

theorem strBody_front (bs : List Char) (hb : StrBody bs) :
    ∀ w r : List Char, w ++ r = bs →
    ∃ e : Bool, ∀ (d : Int) (l : List Char) (os : List (List Char)),
      feed ⟨d, true, false, some l, os⟩ w =
        ⟨d, true, e, some (w.reverse ++ l), os⟩ := by
  induction hb with
  | nil =>
    intro w r hwr
    have hw : w = [] := by
      rcases List.append_eq_nil.mp hwr with ⟨h1, _⟩
      exact h1
    subst hw
    exact ⟨false, fun d l os => by simp [feed]⟩
  | esc c b hb ih =>
    intro w r hwr
    match w with
    | [] => exact ⟨false, fun d l os => by simp [feed]⟩
    | [c1] =>
      have hc1 : c1 = '\\' := by
        simpa using congrArg (fun t => t.head?) hwr
      subst hc1
      refine ⟨true, fun d l os => ?_⟩
      rw [feed_singleton, scanStep_str_backslash _ rfl rfl, pushCur_mk]
      simp
    | c1 :: c2 :: w2 =>
      have h1 : c1 = '\\' ∧ c2 = c ∧ w2 ++ r = b := by
        simpa using hwr
      obtain ⟨hc1, hc2, hw2⟩ := h1
      subst hc1; subst hc2
      obtain ⟨e, he⟩ := ih w2 r hw2
      refine ⟨e, fun d l os => ?_⟩
      rw [feed_cons, scanStep_str_backslash _ rfl rfl, pushCur_mk,
        feed_cons, scanStep_str_esc _ _ rfl rfl, pushCur_mk, he]
      simp
  | chr c b h1 h2 hb ih =>
    intro w r hwr
    match w with
    | [] => exact ⟨false, fun d l os => by simp [feed]⟩
    | c1 :: w1 =>
      have h3 : c1 = c ∧ w1 ++ r = b := by simpa using hwr
      obtain ⟨hc1, hw1⟩ := h3
      subst hc1
      obtain ⟨e, he⟩ := ih w1 r hw1
      refine ⟨e, fun d l os => ?_⟩
      rw [feed_cons, scanStep_str_other _ _ rfl rfl h2 h1, pushCur_mk, he]
      simp

theorem step_quote_open (d : Int) (l : List Char) (os : List (List Char)) :
    scanStep ⟨d, false, false, some l, os⟩ '"' =
      ⟨d, true, false, some ('"' :: l), os⟩ := by
  rw [scanStep_quote _ rfl, pushCur_mk]

theorem step_quote_close (d : Int) (l : List Char) (os : List (List Char)) :
    scanStep ⟨d, true, false, some l, os⟩ '"' =
      ⟨d, false, false, some ('"' :: l), os⟩ := by
  rw [scanStep_str_quote _ rfl rfl, pushCur_mk]

theorem step_open_pos (d : Int) (hd : d ≠ 0) (l : List Char)
    (os : List (List Char)) :
    scanStep ⟨d, false, false, some l, os⟩ braceOpen =
      ⟨d + 1, false, false, some (braceOpen :: l), os⟩ := by
  rw [scanStep_open_pos _ rfl hd, pushCur_mk]

theorem step_close_push (d : Int) (hd : d ≠ 1) (l : List Char)
    (os : List (List Char)) :
    scanStep ⟨d, false, false, some l, os⟩ braceClose =
      ⟨d - 1, false, false, some (braceClose :: l), os⟩ := by
  rw [scanStep_close_push _ _ rfl rfl hd]

theorem step_other (c : Char) (h1 : c ≠ '"') (h2 : c ≠ braceOpen)
    (h3 : c ≠ braceClose) (d : Int) (l : List Char)
    (os : List (List Char)) :
    scanStep ⟨d, false, false, some l, os⟩ c =
      ⟨d, false, false, some (c :: l), os⟩ := by
  rw [scanStep_other _ _ rfl h1 h2 h3, pushCur_mk]

theorem jseq_front (k : Bool) (b : List Char) (hb : JSeq k b) :
    ∀ w r : List Char, w ++ r = b → ∀ d : Int, 1 ≤ d →
    ∃ (d' : Int) (iS e : Bool), 1 ≤ d' ∧
      ∀ (l : List Char) (os : List (List Char)),
        feed ⟨d, false, false, some l, os⟩ w =
          ⟨d', iS, e, some (w.reverse ++ l), os⟩ := by
  induction hb with
  | nil =>
    intro w r hwr d hd
    have hw : w = [] := (List.append_eq_nil.mp hwr).1
    subst hw
    exact ⟨d, false, false, hd, fun l os => by simp [feed]⟩
  | str bs rest hbs hrest ih =>
    intro w r hwr d hd
    match w with
    | [] => exact ⟨d, false, false, hd, fun l os => by simp [feed]⟩
    | c1 :: w1 =>
      have h0 : c1 = '"' ∧ w1 ++ r = bs ++ '"' :: rest := by simpa using hwr
      obtain ⟨hc1, hw1⟩ := h0
      subst hc1
      rcases List.append_eq_append_iff.mp hw1 with ⟨a', hbse, hr⟩ | ⟨c', hw1e, hcr⟩
      · obtain ⟨e, he⟩ := strBody_front bs hbs w1 a' hbse.symm
        refine ⟨d, true, e, hd, fun l os => ?_⟩
        rw [feed_cons, step_quote_open, he]
        simp
      · match c', hcr with
        | [], hcr =>
          rw [List.append_nil] at hw1e
          subst hw1e
          refine ⟨d, true, false, hd, fun l os => ?_⟩
          rw [feed_cons, step_quote_open, feed_strBody _ hbs]
          simp
        | q :: c'', hcr =>
          have hq : '"' = q ∧ rest = c'' ++ r := by simpa using hcr
          obtain ⟨hqe, hrest2⟩ := hq
          subst hqe
          subst hw1e
          obtain ⟨d', iS, e, hd', he⟩ := ih c'' r hrest2.symm d hd
          refine ⟨d', iS, e, hd', fun l os => ?_⟩
          rw [feed_cons, step_quote_open, feed_append, feed_strBody bs hbs,
            feed_cons, step_quote_close, he]
          simp
  | chr c rest h1 h2 h3 hrest ih =>
    intro w r hwr d hd
    match w with
    | [] => exact ⟨d, false, false, hd, fun l os => by simp [feed]⟩
    | c1 :: w1 =>
      have h0 : c1 = c ∧ w1 ++ r = rest := by simpa using hwr
      obtain ⟨hc1, hw1⟩ := h0
      subst hc1
      obtain ⟨d', iS, e, hd', he⟩ := ih w1 r hw1 d hd
      refine ⟨d', iS, e, hd', fun l os => ?_⟩
      rw [feed_cons, step_other _ h1 h2 h3, he]
      simp
  | objItem b rest hbb hrest ihb ihrest =>
    intro w r hwr d hd
    match w with
    | [] => exact ⟨d, false, false, hd, fun l os => by simp [feed]⟩
    | c1 :: w1 =>
      have h0 : c1 = braceOpen ∧ w1 ++ r = b ++ braceClose :: rest := by
        simpa using hwr
      obtain ⟨hc1, hw1⟩ := h0
      subst hc1
      rcases List.append_eq_append_iff.mp hw1 with ⟨a', hbe, hr⟩ | ⟨c', hw1e, hcr⟩
      · obtain ⟨d', iS, e, hd', he⟩ := ihb w1 a' hbe.symm (d + 1) (by omega)
        refine ⟨d', iS, e, hd', fun l os => ?_⟩
        rw [feed_cons, step_open_pos d (by omega), he]
        simp
      · match c', hcr with
        | [], hcr =>
          rw [List.append_nil] at hw1e
          subst hw1e
          refine ⟨d + 1, false, false, by omega, fun l os => ?_⟩
          rw [feed_cons, step_open_pos d (by omega),
            feed_jseq false _ hbb (d + 1) (braceOpen :: l) os (by omega)]
          simp
        | q :: c'', hcr =>
          have hq : braceClose = q ∧ rest = c'' ++ r := by simpa using hcr
          obtain ⟨hqe, hrest2⟩ := hq
          subst hqe
          subst hw1e
          obtain ⟨d', iS, e, hd', he⟩ := ihrest c'' r hrest2.symm d hd
          refine ⟨d', iS, e, hd', fun l os => ?_⟩
          rw [feed_cons, step_open_pos d (by omega), feed_append,
            feed_jseq false b hbb (d + 1) (braceOpen :: l) os (by omega),
            feed_cons, step_close_push (d + 1) (by omega)]
          have hdd : (d + 1 : Int) - 1 = d := by omega
          rw [hdd, he]
          simp
  | obj b hbb ihb =>
    intro w r hwr d hd
    match w with
    | [] => exact ⟨d, false, false, hd, fun l os => by simp [feed]⟩
    | c1 :: w1 =>
      have h0 : c1 = braceOpen ∧ w1 ++ r = b ++ [braceClose] := by
        simpa using hwr
      obtain ⟨hc1, hw1⟩ := h0
      subst hc1
      rcases List.append_eq_append_iff.mp hw1 with ⟨a', hbe, hr⟩ | ⟨c', hw1e, hcr⟩
      · obtain ⟨d', iS, e, hd', he⟩ := ihb w1 a' hbe.symm (d + 1) (by omega)
        refine ⟨d', iS, e, hd', fun l os => ?_⟩
        rw [feed_cons, step_open_pos d (by omega), he]
        simp
      · match c', hcr with
        | [], hcr =>
          rw [List.append_nil] at hw1e
          subst hw1e
          refine ⟨d + 1, false, false, by omega, fun l os => ?_⟩
          rw [feed_cons, step_open_pos d (by omega),
            feed_jseq false _ hbb (d + 1) (braceOpen :: l) os (by omega)]
          simp
        | q :: c'', hcr =>
          have hq : braceClose = q ∧ ([] : List Char) = c'' ++ r := by
            simpa using hcr
          obtain ⟨hqe, hcr2⟩ := hq
          subst hqe
          have hc2 : c'' = [] ∧ r = [] := by
            constructor
            · exact (List.append_eq_nil.mp hcr2.symm).1
            · exact (List.append_eq_nil.mp hcr2.symm).2
          obtain ⟨hc21, hc22⟩ := hc2
          subst hc21
          subst hw1e
          refine ⟨d, false, false, hd, fun l os => ?_⟩
          rw [feed_cons, step_open_pos d (by omega), feed_append,
            feed_jseq false b hbb (d + 1) (braceOpen :: l) os (by omega),
            feed_singleton, step_close_push (d + 1) (by omega)]
          have hdd : (d + 1 : Int) - 1 = d := by omega
          rw [hdd]
          simp

theorem obj_front (o : List Char) (ho : JSeq true o) :
    ∀ w r : List Char, w ++ r = o → r ≠ [] → w ≠ [] →
    ∃ (d : Int) (iS e : Bool), 1 ≤ d ∧
      ∀ os : List (List Char),
        feed ⟨0, false, false, none, os⟩ w = ⟨d, iS, e, some w.reverse, os⟩ := by
  cases ho with
  | obj b hbb =>
    intro w r hwr hr hw
    match w with
    | [] => exact absurd rfl hw
    | c1 :: w1 =>
      have h0 : c1 = braceOpen ∧ w1 ++ r = b ++ [braceClose] := by
        simpa using hwr
      obtain ⟨hc1, hw1⟩ := h0
      subst hc1
      have s1 : ∀ os : List (List Char),
          scanStep ⟨0, false, false, none, os⟩ braceOpen =
            ⟨1, false, false, some [braceOpen], os⟩ := fun os => by
        rw [scanStep_open_zero _ rfl rfl]
      rcases List.append_eq_append_iff.mp hw1 with ⟨a', hbe, hr2⟩ | ⟨c', hw1e, hcr⟩
      · obtain ⟨d', iS, e, hd', he⟩ :=
          jseq_front false b hbb w1 a' hbe.symm 1 (by omega)
        refine ⟨d', iS, e, hd', fun os => ?_⟩
        rw [feed_cons, s1, he]
        simp
      · match c', hcr with
        | [], hcr =>
          rw [List.append_nil] at hw1e
          subst hw1e
          refine ⟨1, false, false, by omega, fun os => ?_⟩
          rw [feed_cons, s1, feed_jseq false _ hbb 1 [braceOpen] os (by omega)]
          simp
        | q :: c'', hcr =>
          have hq : braceClose = q ∧ ([] : List Char) = c'' ++ r := by
            simpa using hcr
          obtain ⟨_, hcr2⟩ := hq
          exact absurd (List.append_eq_nil.mp hcr2.symm).2 hr

theorem good_scan_split (osT : List (List Char)) :
    (∀ o ∈ osT, JSeq true o) → ∀ w r : List Char, w ++ r = osT.flatten →
    ∀ acc : List (List Char),
    ∃ (osD osT' : List (List Char)) (pend : List Char),
      osT = osD ++ osT' ∧ w = osD.flatten ++ pend ∧
      pend ++ r = osT'.flatten ∧ PendOK pend osT' ∧
      ((pend = [] ∧
          feed ⟨0, false, false, none, acc⟩ w =
            ⟨0, false, false, none, osD.reverse ++ acc⟩) ∨
        (∃ (d : Int) (iS e : Bool), 1 ≤ d ∧
          feed ⟨0, false, false, none, acc⟩ w =
            ⟨d, iS, e, some pend.reverse, osD.reverse ++ acc⟩)) := by
  induction osT with
  | nil =>
    intro _ w r hwr acc
    have hw : w = [] := (List.append_eq_nil.mp (by simpa using hwr)).1
    subst hw
    refine ⟨[], [], [], by simp, by simp, by simpa using hwr, Or.inl rfl,
      Or.inl ⟨rfl, by simp [feed]⟩⟩
  | cons o t ih =>
    intro hgood w r hwr acc
    have ho : JSeq true o := hgood o (by simp)
    rw [List.flatten_cons] at hwr
    rcases List.append_eq_append_iff.mp hwr with ⟨a', hoe, hre⟩ | ⟨c', hwe, hfe⟩
    · -- w is a front part of the first object o (o = w ++ a')
      match a', hre with
      | [], hre =>
        -- w = o exactly
        rw [List.append_nil] at hoe
        subst hoe
        refine ⟨[o], t, [], by simp, by simp, by simpa using hre,
          Or.inl rfl, Or.inl ⟨rfl, ?_⟩⟩
        rw [feed_obj_top o ho acc]
        simp
      | a1 :: a2, hre =>
        match w with
        | [] =>
          refine ⟨[], o :: t, [], by simp, by simp, by simpa using hwr,
            Or.inl rfl, Or.inl ⟨rfl, by simp [feed]⟩⟩
        | w1 :: w2 =>
          obtain ⟨d, iS, e, hd, he⟩ :=
            obj_front o ho (w1 :: w2) (a1 :: a2) hoe.symm (by simp) (by simp)
          refine ⟨[], o :: t, w1 :: w2, by simp, by simp, ?_, ?_, ?_⟩
          · rw [List.flatten_cons]
            exact hwr
          · exact Or.inr ⟨o, t, a1 :: a2, rfl, hoe.symm, by simp, by simp⟩
          · exact Or.inr ⟨d, iS, e, hd, by rw [he acc]; simp⟩
    · -- w = o ++ c' : the first object is fully consumed
      obtain ⟨osD, osT', pend, h1, h2, h3, h4, h5⟩ :=
        ih (fun x hx => hgood x (by simp [hx])) c' r hfe.symm (o :: acc)
      subst hwe
      refine ⟨o :: osD, osT', pend, by simp [h1], by simp [h2], h3, h4, ?_⟩
      rcases h5 with ⟨hp, hfeed⟩ | ⟨d, iS, e, hd, hfeed⟩
      · refine Or.inl ⟨hp, ?_⟩
        rw [feed_append, feed_obj_top o ho acc, hfeed]
        simp
      · refine Or.inr ⟨d, iS, e, hd, ?_⟩
        rw [feed_append, feed_obj_top o ho acc, hfeed]
        simp

theorem processChunks_aux (chunks : List (List Char)) :
    ∀ (osT : List (List Char)) (pend : List Char) (accObjs : List (List Char)),
    (∀ o ∈ osT, JSeq true o) → PendOK pend osT →
    pend ++ chunks.flatten = osT.flatten →
    chunks.foldl
      (fun acc c =>
        let r := extractJsonObjects (acc.2 ++ c)
        (acc.1 ++ r.1, r.2))
      (accObjs, pend) = (accObjs ++ osT, []) := by
  induction chunks with
  | nil =>
    intro osT pend accObjs hgood hpend hjoin
    simp only [List.flatten_nil, List.append_nil] at hjoin
    rcases hpend with hp | ⟨o, t, rr, hosT, hporr, hpne, hrrne⟩
    · subst hp
      have hflat : osT.flatten = [] := hjoin.symm
      have hosT : osT = [] := by
        cases osT with
        | nil => rfl
        | cons o t =>
          have h1 : o = [] := (List.flatten_eq_nil_iff.mp hflat) o (by simp)
          exact absurd h1 (jseq_true_ne_nil o (hgood o (by simp)))
      subst hosT
      simp
    · subst hosT
      rw [List.flatten_cons] at hjoin
      have h1 : pend.length + rr.length = o.length := by
        rw [← hporr]; simp
      have h2 : pend.length = o.length + t.flatten.length := by
        rw [hjoin]; simp
      have h3 : rr.length ≠ 0 := by
        intro h
        exact hrrne (List.length_eq_zero.mp h)
      omega
  | cons c cs ih =>
    intro osT pend accObjs hgood hpend hjoin
    rw [List.flatten_cons] at hjoin
    have hsplit : (pend ++ c) ++ cs.flatten = osT.flatten := by
      rw [← hjoin]; simp [List.append_assoc]
    obtain ⟨osD, osT', pend', h1, h2, h3, h4, h5⟩ :=
      good_scan_split osT hgood (pend ++ c) cs.flatten hsplit []
    have hext : extractJsonObjects (pend ++ c) = (osD, pend') := by
      rcases h5 with ⟨hp, hfeed⟩ | ⟨d, iS, e, hd, hfeed⟩
      · subst hp
        unfold extractJsonObjects
        rw [show initSt = (⟨0, false, false, none, []⟩ : ScanState) from rfl,
          hfeed]
        simp
      · unfold extractJsonObjects
        rw [show initSt = (⟨0, false, false, none, []⟩ : ScanState) from rfl,
          hfeed]
        have hd0 : (0 : Int) < d := by omega
        simp [hd0]
    rw [List.foldl_cons]
    show List.foldl
        (fun acc c =>
          let r := extractJsonObjects (acc.2 ++ c)
          (acc.1 ++ r.1, r.2))
        (accObjs ++ (extractJsonObjects (pend ++ c)).1,
          (extractJsonObjects (pend ++ c)).2) cs = (accObjs ++ osT, [])
    rw [hext]
    have hgood' : ∀ o ∈ osT', JSeq true o := fun o ho =>
      hgood o (by rw [h1]; exact List.mem_append_right _ ho)
    rw [ih osT' pend' (accObjs ++ osD) hgood' h4 h3, h1]
    simp [List.append_assoc]

/-- C1: Frame Extractor chunk-invariance.  For any list `os` of
well-formed top-level JSON objects (any objects generated by the
brace-balance grammar `JSeq true`, which includes objects whose quoted
string values contain braces and escaped quotes) and any fragmentation
`chunks` of their concatenation, feeding the fragments sequentially —
each call's input being the previous call's remainder concatenated with
the next fragment — yields exactly the objects of `os`, in order, with an
empty final remainder, and this equals the result of feeding the whole
string in one call. -/
theorem claims_c1 (os chunks : List (List Char))
    (hos : ∀ o ∈ os, JSeq true o) (hjoin : chunks.flatten = os.flatten) :
    processChunks chunks = (os, []) ∧
      extractJsonObjects os.flatten = (os, []) := by
  constructor
  · unfold processChunks
    have h := processChunks_aux chunks os [] [] hos (Or.inl rfl)
      (by simpa using hjoin)
    simpa using h
  · exact extract_flatten os hos

theorem claims_c1_witness :
    (∀ o ∈ [[braceOpen, '"', 'a', '"', ':', '"', 'b', '\\', '"', braceClose,
             '"', braceClose],
            [braceOpen, '"', 'k', '"', ':', '1', '2', braceClose]],
        JSeq true o) ∧
    processChunks
        [[braceOpen, '"', 'a', '"', ':', '"', 'b', '\\'],
         ['"', braceClose, '"', braceClose, braceOpen, '"', 'k'],
         ['"', ':', '1', '2', braceClose]] =
      ([[braceOpen, '"', 'a', '"', ':', '"', 'b', '\\', '"', braceClose,
         '"', braceClose],
        [braceOpen, '"', 'k', '"', ':', '1', '2', braceClose]], []) ∧
    extractJsonObjects
        [braceOpen, '"', 'a', '"', ':', '"', 'b', '\\', '"', braceClose,
         '"', braceClose, braceOpen, '"', 'k', '"', ':', '1', '2',
         braceClose] =
      ([[braceOpen, '"', 'a', '"', ':', '"', 'b', '\\', '"', braceClose,
         '"', braceClose],
        [braceOpen, '"', 'k', '"', ':', '1', '2', braceClose]], []) := by
  have hb1 : StrBody ['a'] := .chr 'a' [] (by decide) (by decide) .nil
  have hb2 : StrBody ['b', '\\', '"', braceClose] :=
    .chr 'b' ['\\', '"', braceClose] (by decide) (by decide)
      (.esc '"' [braceClose] (.chr braceClose [] (by decide) (by decide) .nil))
  have h2 : JSeq false ['"', 'b', '\\', '"', braceClose, '"'] :=
    JSeq.str ['b', '\\', '"', braceClose] [] hb2 JSeq.nil
  have h3 : JSeq false [':', '"', 'b', '\\', '"', braceClose, '"'] :=
    JSeq.chr ':' _ (by decide) (by decide) (by decide) h2
  have h4 : JSeq false
      ['"', 'a', '"', ':', '"', 'b', '\\', '"', braceClose, '"'] :=
    JSeq.str ['a'] _ hb1 h3
  have ho1 : JSeq true
      [braceOpen, '"', 'a', '"', ':', '"', 'b', '\\', '"', braceClose,
       '"', braceClose] :=
    JSeq.obj _ h4
  have hk : StrBody ['k'] := .chr 'k' [] (by decide) (by decide) .nil
  have h5 : JSeq false [':', '1', '2'] :=
    JSeq.chr ':' _ (by decide) (by decide) (by decide)
      (JSeq.chr '1' _ (by decide) (by decide) (by decide)
        (JSeq.chr '2' _ (by decide) (by decide) (by decide) JSeq.nil))
  have h6 : JSeq false ['"', 'k', '"', ':', '1', '2'] := JSeq.str ['k'] _ hk h5
  have ho2 : JSeq true [braceOpen, '"', 'k', '"', ':', '1', '2', braceClose] :=
    JSeq.obj _ h6
  have hos : ∀ o ∈ [[braceOpen, '"', 'a', '"', ':', '"', 'b', '\\', '"',
        braceClose, '"', braceClose],
      [braceOpen, '"', 'k', '"', ':', '1', '2', braceClose]], JSeq true o := by
    intro o ho
    simp only [List.mem_cons, List.not_mem_nil, or_false] at ho
    rcases ho with h | h
    · rw [h]; exact ho1
    · rw [h]; exact ho2
  obtain ⟨hA, hB⟩ := claims_c1
    [[braceOpen, '"', 'a', '"', ':', '"', 'b', '\\', '"', braceClose,
      '"', braceClose],
     [braceOpen, '"', 'k', '"', ':', '1', '2', braceClose]]
    [[braceOpen, '"', 'a', '"', ':', '"', 'b', '\\'],
     ['"', braceClose, '"', braceClose, braceOpen, '"', 'k'],
     ['"', ':', '1', '2', braceClose]]
    hos (by decide)
  exact ⟨hos, hA, by simpa using hB⟩

theorem topBrace_lt_length (b : List Char) (i : Nat) (h : TopBrace b i) :
    i < b.length := by
  rcases h with ⟨_, _, h3⟩
  by_contra hge
  push_neg at hge
  rw [List.drop_eq_nil_of_le hge] at h3
  simp at h3

theorem topBrace_snoc (b : List Char) (c : Char) (i : Nat) (h : i < b.length) :
    TopBrace (b ++ [c]) i ↔ TopBrace b i := by
  unfold TopBrace
  rw [List.take_append_of_le_length (le_of_lt h),
    List.drop_append_of_le_length (le_of_lt h)]
  have hne : b.drop i ≠ [] := by
    intro hnil
    have h1 : (b.drop i).length = b.length - i := List.length_drop i b
    rw [hnil] at h1
    simp at h1
    omega
  cases hx : b.drop i with
  | nil => exact absurd hx hne
  | cons x xs => simp [hx]

theorem scanStep_neutral (st : ScanState) (c : Char)
    (h : st.inStr = true ∨ (c ≠ braceOpen ∧ c ≠ braceClose)) :
    (scanStep st c).cur = st.cur.map (fun l => c :: l) ∧
    (scanStep st c).depth = st.depth := by
  rcases h with h | ⟨h1, h2⟩
  · simp only [scanStep, h, if_true]
    split_ifs <;> simp [pushCur]
  · by_cases hS : st.inStr
    · simp only [scanStep, hS, if_true]
      split_ifs <;> simp [pushCur]
    · by_cases hq : c = '"'
      · subst hq
        simp [scanStep, hS, pushCur]
      · simp [scanStep, hS, hq, h1, h2, pushCur]

theorem topBrace_extend (b : List Char) (c : Char) (l : List Char)
    (hdep : 1 ≤ (feed initSt b).depth)
    (hex : ∃ i, i < b.length ∧ TopBrace b i ∧ l.reverse = b.drop i ∧
      ∀ j, i < j → ¬ TopBrace b j) :
    ∃ i, i < (b ++ [c]).length ∧ TopBrace (b ++ [c]) i ∧
      (c :: l).reverse = (b ++ [c]).drop i ∧
      ∀ j, i < j → ¬ TopBrace (b ++ [c]) j := by
  obtain ⟨i, hi, htb, hrev, hlast⟩ := hex
  refine ⟨i, by simp; omega, (topBrace_snoc b c i hi).mpr htb, ?_, ?_⟩
  · rw [List.reverse_cons, hrev, List.drop_append_of_le_length (le_of_lt hi)]
  · intro j hj htb'
    have hjlt : j < b.length + 1 := by
      have h1 := topBrace_lt_length _ _ htb'
      simpa using h1
    by_cases hjb : j < b.length
    · exact hlast j hj ((topBrace_snoc b c j hjb).mp htb')
    · have hj' : j = b.length := by omega
      subst hj'
      rcases htb' with ⟨hd0, _, _⟩
      rw [List.take_append_of_le_length (Nat.le_refl _),
        List.take_length] at hd0
      omega

theorem feed_cur_spec (b : List Char) :
    ((feed initSt b).cur = none → (feed initSt b).depth ≤ 0) ∧
    (∀ l, (feed initSt b).cur = some l →
      1 ≤ (feed initSt b).depth ∧
      ∃ i, i < b.length ∧ TopBrace b i ∧ l.reverse = b.drop i ∧
        ∀ j, i < j → ¬ TopBrace b j) := by
  induction b using List.reverseRecOn with
  | nil =>
    refine ⟨fun _ => by simp [feed, initSt], fun l hl => ?_⟩
    simp [feed, initSt] at hl
  | append_singleton b c ih =>
    obtain ⟨ihn, ihs⟩ := ih
    rw [feed_snoc]
    by_cases hneu : (feed initSt b).inStr = true ∨ (c ≠ braceOpen ∧ c ≠ braceClose)
    · obtain ⟨hcur, hdep⟩ := scanStep_neutral (feed initSt b) c hneu
      constructor
      · intro hc'
        rw [hcur] at hc'
        rw [hdep]
        exact ihn (Option.map_eq_none'.mp hc')
      · intro l' hl'
        rw [hcur] at hl'
        obtain ⟨l, hl, hmap⟩ := Option.map_eq_some'.mp hl'
        obtain ⟨hd1, hex⟩ := ihs l hl
        subst hmap
        rw [hdep]
        exact ⟨hd1, topBrace_extend b c l hd1 hex⟩
    · push_neg at hneu
      obtain ⟨hS', hbrace⟩ := hneu
      have hS : (feed initSt b).inStr = false := by
        simpa using hS'
      by_cases hbo : c = braceOpen
      · subst hbo
        by_cases hd : (feed initSt b).depth = 0
        · rw [scanStep_open_zero _ hS hd]
          refine ⟨fun hc' => by simp at hc', fun l' hl' => ?_⟩
          simp only [Option.some.injEq] at hl'
          subst hl'
          refine ⟨by simp, b.length, by simp, ?_, ?_, ?_⟩
          · refine ⟨?_, ?_, ?_⟩
            · rw [List.take_append_of_le_length (Nat.le_refl _),
                List.take_length]
              exact hd
            · rw [List.take_append_of_le_length (Nat.le_refl _),
                List.take_length]
              exact hS
            · simp
          · simp
          · intro j hj htb'
            have h1 := topBrace_lt_length _ _ htb'
            simp at h1
            omega
        · rw [scanStep_open_pos _ hS hd]
          constructor
          · intro hc'
            simp only [pushCur] at hc'
            simp only [pushCur]
            have hnone : (feed initSt b).cur = none := by
              rcases hx : (feed initSt b).cur with _ | l
              · rfl
              · rw [hx] at hc'; simp at hc'
            have h1 := ihn hnone
            simp
            omega
          · intro l' hl'
            simp only [pushCur] at hl'
            obtain ⟨l, hl, hmap⟩ := Option.map_eq_some'.mp (by simpa using hl')
            obtain ⟨hd1, hex⟩ := ihs l hl
            subst hmap
            constructor
            · simp; omega
            · have h2 := topBrace_extend b braceOpen l hd1 hex
              simpa using h2
      · have hbc : c = braceClose := by
          rcases (hbrace hbo) with h
          by_contra hne
          exact hne h
        subst hbc
        rcases hx : (feed initSt b).cur with _ | l
        · rw [scanStep_close_none _ hS hx]
          refine ⟨fun _ => ?_, fun l' hl' => by simp [hx] at hl' ⊢⟩
          have h1 := ihn hx
          simp
          omega
        · obtain ⟨hd1, hex⟩ := ihs l hx
          by_cases hdo : (feed initSt b).depth = 1
          · rw [scanStep_close_emit _ l hS hx hdo]
            refine ⟨fun _ => by simp; omega, fun l' hl' => by simp at hl'⟩
          · rw [scanStep_close_push _ l hS hx hdo]
            refine ⟨fun hc' => by simp at hc', fun l' hl' => ?_⟩
            simp only [Option.some.injEq] at hl'
            subst hl'
            constructor
            · simp; omega
            · have h2 := topBrace_extend b braceClose l hd1 hex
              simpa using h2

/-- C3: when the scan of a buffer ends with `depth > 0`, the remainder
returned by `extractJsonObjects` is the substring from the last opening
brace seen at top level (the last unmatched `{` that opened a top-level
object, i.e. the source's `start`) to the end of the input; in
particular everything before that position — including any text read at
depth 0 before the first complete object — is dropped and never carried
into the remainder. -/
theorem claims_c3 (buffer : List Char)
    (h : 0 < (feed initSt buffer).depth) :
    ∃ i, i < buffer.length ∧ TopBrace buffer i ∧
      (extractJsonObjects buffer).2 = buffer.drop i ∧
      ∀ j, i < j → ¬ TopBrace buffer j := by
  obtain ⟨ihn, ihs⟩ := feed_cur_spec buffer
  rcases hx : (feed initSt buffer).cur with _ | l
  · have h1 := ihn hx
    omega
  · obtain ⟨hd1, i, hi, htb, hrev, hlast⟩ := ihs l hx
    refine ⟨i, hi, htb, ?_, hlast⟩
    have h2 : (extractJsonObjects buffer).2 = l.reverse := by
      unfold extractJsonObjects
      simp [hx, h]
    rw [h2, hrev]

theorem claims_c3_witness :
    0 < (feed initSt ['x', braceOpen, '"', 'a', '"', ':', '1', braceClose,
      'z', braceOpen, '"', 'b']).depth ∧
    ∃ i, i < (['x', braceOpen, '"', 'a', '"', ':', '1', braceClose,
        'z', braceOpen, '"', 'b'] : List Char).length ∧
      TopBrace ['x', braceOpen, '"', 'a', '"', ':', '1', braceClose,
        'z', braceOpen, '"', 'b'] i ∧
      (extractJsonObjects ['x', braceOpen, '"', 'a', '"', ':', '1',
        braceClose, 'z', braceOpen, '"', 'b']).2 =
        (['x', braceOpen, '"', 'a', '"', ':', '1', braceClose,
          'z', braceOpen, '"', 'b'] : List Char).drop i ∧
      ∀ j, i < j → ¬ TopBrace ['x', braceOpen, '"', 'a', '"', ':', '1',
        braceClose, 'z', braceOpen, '"', 'b'] j :=
  ⟨by decide, claims_c3 _ (by decide)⟩

theorem classifyObj_emit_ne (o : ProxyMain.StreamObj) (t : String)
    (h : ProxyMain.classifyObj o = ProxyMain.StreamAction.emit t) : t ≠ "" := by
  rcases o with ⟨ty, tok, stat⟩
  rcases ty with _ | tv
  · simp [ProxyMain.classifyObj] at h
  · rcases tok with _ | jv
    · simp only [ProxyMain.classifyObj] at h
      split_ifs at h
    · rcases jv with s | _
      · simp only [ProxyMain.classifyObj] at h
        split_ifs at h
        simp_all
      · simp only [ProxyMain.classifyObj] at h
        split_ifs at h

theorem relayObjs_emit_ne (objs : List ProxyMain.StreamObj) :
    ∀ t ∈ (ProxyMain.relayObjs objs).1, t ≠ "" := by
  induction objs with
  | nil => intro t ht; simp [ProxyMain.relayObjs] at ht
  | cons o rest ih =>
    intro t ht
    rcases hc : ProxyMain.classifyObj o with t' | _ | _ <;>
      simp only [ProxyMain.relayObjs, hc] at ht
    · rcases List.mem_cons.mp ht with h | h
      · subst h
        exact classifyObj_emit_ne o t hc
      · exact ih t h
    · exact ih t ht
    · simp at ht

theorem lambdaChatStream_emit_ne (chunks : List (List ProxyMain.StreamObj)) :
    ∀ t ∈ ProxyMain.lambdaChatStream chunks, t ≠ "" := by
  induction chunks with
  | nil => intro t ht; simp [ProxyMain.lambdaChatStream] at ht
  | cons c cs ih =>
    intro t ht
    simp only [ProxyMain.lambdaChatStream] at ht
    split_ifs at ht
    · exact relayObjs_emit_ne c t ht
    · rcases List.mem_append.mp ht with h | h
      · exact relayObjs_emit_ne c t h
      · exact ih t h

/-- C8: a `"stream"` event whose `token` field is a string yields exactly
the NUL-stripped token text, as a no-op when the stripped text is empty;
consequently every OutputToken the relay emits is non-empty. -/
theorem claims_c8 :
    (∀ (o : ProxyMain.StreamObj) (s : String),
      o.type = some ("stream") → o.token = some (ProxyMain.JVal.str s) →
      ProxyMain.classifyObj o =
        (if stripNul s = "" then ProxyMain.StreamAction.skip
          else ProxyMain.StreamAction.emit (stripNul s))) ∧
    (∀ (o : ProxyMain.StreamObj) (t : String),
      ProxyMain.classifyObj o = ProxyMain.StreamAction.emit t → t ≠ "") ∧
    (∀ (chunks : List (List ProxyMain.StreamObj)) (t : String),
      t ∈ ProxyMain.lambdaChatStream chunks → t ≠ "") := by
  refine ⟨?_, ?_, ?_⟩
  · intro o s h1 h2
    rcases o with ⟨ty, tok, stat⟩
    simp only at h1 h2
    subst h1
    subst h2
    simp [ProxyMain.classifyObj]
  · exact classifyObj_emit_ne
  · exact fun chunks t ht => lambdaChatStream_emit_ne chunks t ht

theorem claims_c8_witness :
    ProxyMain.classifyObj
        ⟨some ("stream"), some (ProxyMain.JVal.str ("to\x00ken")), none⟩ =
      ProxyMain.StreamAction.emit ("token") := by
  have h := claims_c8.1
    ⟨some ("stream"), some (ProxyMain.JVal.str ("to\x00ken")), none⟩
    ("to\x00ken") rfl rfl
  rw [h]
  decide

/-- C5: for the same upstream token sequence, the aggregate-mode full
text equals the in-order concatenation of the incremental-mode content
deltas. -/
theorem claims_c5 (id : String) (created : Nat) (model : String)
    (tokens : List String) :
    (ProxyMain.nonStreamResponse id created model tokens).content =
      ((ProxyMain.streamItems id created model tokens).filterMap
          ProxyMain.contentDelta).foldl (fun a t => a ++ t) "" := by
  have hlist : (ProxyMain.streamItems id created model tokens).filterMap
      ProxyMain.contentDelta = tokens := by
    simp only [ProxyMain.streamItems, List.filterMap_cons,
      List.filterMap_append, List.filterMap_map]
    simp only [ProxyMain.contentDelta, ProxyMain.roleChunk,
      ProxyMain.stopChunk, ProxyMain.tokenChunk, Function.comp]
    induction tokens with
    | nil => rfl
    | cons t ts ih =>
      simp only [List.filterMap_cons, Function.comp_apply,
        ProxyMain.contentDelta]
      simp only [List.filterMap_nil, List.append_nil] at ih ⊢
      rw [ih]
  rw [hlist]
  rfl

/-- C10: the first SSE item of every incremental response is the
role-announcement chunk `delta: { role: "assistant" }` with a null
finish reason, independent of (and hence before) any upstream token. -/
theorem claims_c10 (id : String) (created : Nat) (model : String)
    (tokens : List String) :
    (ProxyMain.streamItems id created model tokens).head? =
      some (ProxyMain.SSEItem.chunk (ProxyMain.roleChunk id created model)) ∧
    (ProxyMain.roleChunk id created model).delta =
      { role := some ("assistant"), content := none } ∧
    (ProxyMain.roleChunk id created model).finish_reason = none :=
  ⟨rfl, rfl, rfl⟩

theorem randomChoice_index_lt (r : ℚ) (h0 : 0 ≤ r) (h1 : r < 1)
    (n : Nat) (hn : 0 < n) : Int.toNat ⌊r * (n : ℚ)⌋ < n := by
  have hnn : (0 : ℚ) ≤ r * (n : ℚ) := by positivity
  have hlt : r * (n : ℚ) < (n : ℚ) := by
    have h2 : r * (n : ℚ) < 1 * (n : ℚ) := by
      apply mul_lt_mul_of_pos_right h1
      exact_mod_cast hn
    simpa using h2
  have h3 : ⌊r * (n : ℚ)⌋ < (n : ℤ) := by
    apply Int.floor_lt.mpr
    exact_mod_cast hlt
  have h4 : 0 ≤ ⌊r * (n : ℚ)⌋ := Int.floor_nonneg.mpr hnn
  omega

theorem randomChoice_mem (r : ℚ) (h0 : 0 ≤ r) (h1 : r < 1)
    (arr : List String) (hne : arr ≠ []) :
    ProxyMain.randomChoice r arr ∈ arr := by
  unfold ProxyMain.randomChoice
  have hlen : 0 < arr.length := List.length_pos.mpr hne
  have hidx := randomChoice_index_lt r h0 h1 arr.length hlen
  rw [List.getD_eq_getElem?_getD, List.getElem?_eq_getElem hidx]
  simp only [Option.getD_some]
  exact List.getElem_mem hidx

theorem randomChoice_at_index (arr : List String) (n : Nat)
    (hn : n < arr.length) :
    ProxyMain.randomChoice ((n : ℚ) / (arr.length : ℚ)) arr = arr[n] := by
  unfold ProxyMain.randomChoice
  have hlen : (0 : ℚ) < (arr.length : ℚ) := by
    have h1 : 0 < arr.length := Nat.lt_of_le_of_lt (Nat.zero_le n) hn
    exact_mod_cast h1
  have hmul : ((n : ℚ) / (arr.length : ℚ)) * (arr.length : ℚ) = (n : ℚ) := by
    field_simp
  rw [hmul, Int.floor_natCast]
  simp only [Int.toNat_natCast]
  rw [List.getD_eq_getElem?_getD, List.getElem?_eq_getElem hn]
  simp

/-- C6: model resolution.  Absent or empty requested ids resolve to the
configured default; canonical ids are returned unchanged; a single-valued
alias maps deterministically (for every randomness value); a multi-valued
alias returns a member of its candidate set for every admissible
randomness value, and each member is selected by some admissible value
(nonzero probability); a non-empty id matching neither table fails with
the `Model '...' not found` error. -/
theorem claims_c6 (r : ℚ) (h0 : 0 ≤ r) (h1 : r < 1) :
    ProxyMain.ResolverSpec r := by
  have hdef : ProxyMain.DEFAULT_MODEL ∈ ProxyMain.CANONICAL_MODELS := by decide
  refine ⟨?_, ?_, ?_, ?_, ?_, ?_, ?_⟩
  · simp only [ProxyMain.resolveModel]
    rw [if_pos hdef]
  · have h2 : ProxyMain.resolveModel r (some ("")) =
        ProxyMain.resolveModel r none := rfl
    rw [h2]
    simp only [ProxyMain.resolveModel]
    rw [if_pos hdef]
  · intro m hm
    have hne : m ≠ "" := by
      intro he
      subst he
      revert hm
      decide
    simp only [ProxyMain.resolveModel, if_neg hne]
    rw [if_pos hm]
  · intro a c hnc hal
    have hne : a ≠ "" := by
      intro he
      subst he
      rw [show ProxyMain.MODEL_ALIASES ("") = none from by decide] at hal
      exact Option.noConfusion hal
    simp only [ProxyMain.resolveModel, if_neg hne]
    rw [if_neg hnc, hal]
  · intro a cs hnc hal hcs
    have hne : a ≠ "" := by
      intro he
      subst he
      rw [show ProxyMain.MODEL_ALIASES ("") = none from by decide] at hal
      exact Option.noConfusion hal
    refine ⟨ProxyMain.randomChoice r cs, randomChoice_mem r h0 h1 cs hcs, ?_⟩
    simp only [ProxyMain.resolveModel, if_neg hne]
    rw [if_neg hnc, hal]
  · intro a cs c hnc hal hc
    have hne : a ≠ "" := by
      intro he
      subst he
      rw [show ProxyMain.MODEL_ALIASES ("") = none from by decide] at hal
      exact Option.noConfusion hal
    obtain ⟨n, hn⟩ := List.mem_iff_get.mp hc
    have hlen : 0 < cs.length := Nat.lt_of_le_of_lt (Nat.zero_le _) n.2
    refine ⟨(n.1 : ℚ) / (cs.length : ℚ), by positivity, ?_, ?_⟩
    · rw [div_lt_one (by exact_mod_cast hlen)]
      exact_mod_cast n.2
    · simp only [ProxyMain.resolveModel, if_neg hne]
      rw [if_neg hnc, hal]
      show Except.ok
          (a, ProxyMain.randomChoice ((n.1 : ℚ) / (cs.length : ℚ)) cs) =
        Except.ok (a, c)
      rw [randomChoice_at_index cs n.1 n.2, ← List.get_eq_getElem, hn]
  · intro s hs1 hs2 hs3
    simp only [ProxyMain.resolveModel, if_neg hs1]
    rw [if_neg hs2, hs3]

theorem claims_c6_witness : ProxyMain.ResolverSpec (1 / 2) :=
  claims_c6 (1 / 2) (by norm_num) (by norm_num)

/-- C9 (implicit): every internal model id a successful resolution
returns is a member of the canonical model list — alias expansion never
leaves the list. -/
theorem claims_c9 (r : ℚ) (h0 : 0 ≤ r) (h1 : r < 1) (req : Option String)
    (u m : String)
    (h : ProxyMain.resolveModel r req = Except.ok (u, m)) :
    m ∈ ProxyMain.CANONICAL_MODELS := by
  simp only [ProxyMain.resolveModel] at h
  set requested := (match req with
    | none => ProxyMain.DEFAULT_MODEL
    | some s => if s = "" then ProxyMain.DEFAULT_MODEL else s) with hreq
  by_cases hc : requested ∈ ProxyMain.CANONICAL_MODELS
  · rw [if_pos hc] at h
    simp only [Except.ok.injEq, Prod.mk.injEq] at h
    rw [← h.2]
    exact hc
  · rw [if_neg hc] at h
    rcases hal : ProxyMain.MODEL_ALIASES requested with _ | av
    · rw [hal] at h
      exact absurd h (by simp)
    · rcases av with mn | ms
      · rw [hal] at h
        have hm : m = mn := by
          simp only [Except.ok.injEq, Prod.mk.injEq] at h
          exact h.2.symm
        subst hm
        simp only [ProxyMain.MODEL_ALIASES] at hal
        split_ifs at hal <;> simp at hal <;> subst hal <;> decide
      · rw [hal] at h
        have hm : m = ProxyMain.randomChoice r ms := by
          simp only [Except.ok.injEq, Prod.mk.injEq] at h
          exact h.2.symm
        subst hm
        simp only [ProxyMain.MODEL_ALIASES] at hal
        split_ifs at hal <;> simp at hal
        subst hal
        have hmem := randomChoice_mem r h0 h1
          ["hermes3-405b-fp8-128k", "hermes-3-llama-3.1-405b-fp8"] (by simp)
        have hall : ∀ x ∈ (["hermes3-405b-fp8-128k",
            "hermes-3-llama-3.1-405b-fp8"] : List String),
            x ∈ ProxyMain.CANONICAL_MODELS := by decide
        exact hall _ hmem

theorem resolve_hermes_at_zero :
    ProxyMain.resolveModel 0 (some ("hermes-3-405b")) =
      Except.ok (("hermes-3-405b"), ("hermes3-405b-fp8-128k")) := by
  have hr : ProxyMain.randomChoice 0
      ["hermes3-405b-fp8-128k", "hermes-3-llama-3.1-405b-fp8"] =
      "hermes3-405b-fp8-128k" := by
    unfold ProxyMain.randomChoice
    norm_num
  have hnc : ("hermes-3-405b") ∉ ProxyMain.CANONICAL_MODELS := by decide
  simp only [ProxyMain.resolveModel]
  rw [if_neg (by decide : ¬("hermes-3-405b" = "")), if_neg hnc,
    show ProxyMain.MODEL_ALIASES ("hermes-3-405b") =
      some (AliasVal.many
        ["hermes3-405b-fp8-128k", "hermes-3-llama-3.1-405b-fp8"]) from
      by decide]
  show Except.ok (("hermes-3-405b"), ProxyMain.randomChoice 0
      ["hermes3-405b-fp8-128k", "hermes-3-llama-3.1-405b-fp8"]) = _
  rw [hr]

theorem claims_c9_witness :
    ProxyMain.resolveModel 0 (some ("hermes-3-405b")) =
      Except.ok (("hermes-3-405b"), ("hermes3-405b-fp8-128k")) ∧
    ("hermes3-405b-fp8-128k") ∈ ProxyMain.CANONICAL_MODELS := by
  constructor
  · exact resolve_hermes_at_zero
  · exact claims_c9 0 (by norm_num) (by norm_num) (some ("hermes-3-405b"))
      ("hermes-3-405b") ("hermes3-405b-fp8-128k") resolve_hermes_at_zero

/-- C2 evidence: the standalone copy's stream loop keeps emitting after a
`finalAnswer` event.  A `finalAnswer` in the first read batch enqueues
the terminal envelope and the `[DONE]` sentinel and `break`s out of the
inner line loop only; a `"stream"` token arriving in a later batch is
still emitted — an OutputToken after the `finalAnswer` event, contrary to
the claim (the `lambdaChatStream` copies `return` out of the generator
instead and do stop for good). -/
theorem claims_c2 :
    MainTs.streamLoop
        [[{ type := some ("finalAnswer") }],
         [{ type := some ("stream"), token := some ("late") }]] =
      [MainTs.SSEOut.envelope none (some ("stop")),
       MainTs.SSEOut.doneSentinel,
       MainTs.SSEOut.envelope (some ("late")) none] := by
  decide

/-- C4 evidence: when the upstream body ends without a `finalAnswer`
event, the standalone copy's stream loop emits no terminal stop envelope
and no `data: [DONE]` sentinel at all — the incremental response is not
"token envelopes, then exactly one terminal envelope, then the
sentinel" for every upstream sequence.  (Independently, each envelope it
does emit is built by `createStreamResponse` with a fresh
`chatcmpl-<uuid>` id and a fresh timestamp, so envelopes of one response
do not share a request identifier either; `handleChatCompletions`
allocates `id`/`created` once, as the claim describes.) -/
theorem claims_c4 :
    MainTs.streamLoop [[{ type := some ("stream"), token := some ("hi") }]] =
      [MainTs.SSEOut.envelope (some ("hi")) none] ∧
    MainTs.SSEOut.doneSentinel ∉
      MainTs.streamLoop
        [[{ type := some ("stream"), token := some ("hi") }]] ∧
    ∀ d, MainTs.SSEOut.envelope d (some ("stop")) ∉
      MainTs.streamLoop
        [[{ type := some ("stream"), token := some ("hi") }]] := by
  have h1 : MainTs.streamLoop
      [[{ type := some ("stream"), token := some ("hi") }]] =
      [MainTs.SSEOut.envelope (some ("hi")) none] := by decide
  refine ⟨h1, ?_, ?_⟩
  · rw [h1]
    decide
  · intro d hmem
    rw [h1] at hmem
    simp at hmem
  
/-- C7 evidence: a request whose messages contain no `"user"` entry but
whose model id is unknown leaves the standalone `handleChatCompletion`
through the catch-all with HTTP 500, not 400: `getModel` throws before
the user-message check runs.  (No upstream call is made — the outcome is
an error response, not `upstreamCall` — but the claimed status code and
error class are wrong for this copy; `handleChatCompletions` of the
proxy variant returns 400 here.) -/
theorem claims_c7 :
    (∀ m ∈ ([⟨"system", "x"⟩] : List MainTs.ChatMsg), m.role ≠ "user") ∧
    MainTs.handleChatCompletion 0 (some ("bogus")) [⟨"system", "x"⟩] =
      MainTs.Outcome.errResp 500 ("Model bogus not found") := by
  constructor
  · decide
  · decide

theorem relayObjs_append (a b : List ProxyMain.StreamObj)
    (ha : (ProxyMain.relayObjs a).2 = false) :
    ProxyMain.relayObjs (a ++ b) =
      ((ProxyMain.relayObjs a).1 ++ (ProxyMain.relayObjs b).1,
        (ProxyMain.relayObjs b).2) := by
  induction a with
  | nil => simp [ProxyMain.relayObjs]
  | cons p ps ih =>
    rcases hc : ProxyMain.classifyObj p with t | _ | _ <;>
      simp only [ProxyMain.relayObjs, hc, List.append_eq] at ha ⊢
    · rw [ih ha]
      simp
    · exact ih ha
    · simp at ha

/-- The `lambdaChatStream` relay (as in both generator copies, which
`return` on `finalAnswer`): once a frame classifies as `stop`, neither
the remaining frames of the same read nor any later read contributes a
token — exactly the behaviour the specification describes and the
standalone copy (`claims_c2`) violates. -/
theorem lambdaChatStream_stops_at_final (pre post : List ProxyMain.StreamObj)
    (chunks : List (List ProxyMain.StreamObj)) (o : ProxyMain.StreamObj)
    (ho : ProxyMain.classifyObj o = ProxyMain.StreamAction.stop)
    (hpre : (ProxyMain.relayObjs pre).2 = false) :
    ProxyMain.lambdaChatStream ((pre ++ o :: post) :: chunks) =
      (ProxyMain.relayObjs pre).1 := by
  have hop : ProxyMain.relayObjs (o :: post) = ([], true) := by
    simp [ProxyMain.relayObjs, ho]
  have hsplit := relayObjs_append pre (o :: post) hpre
  rw [hop] at hsplit
  simp only [ProxyMain.lambdaChatStream, hsplit]
  simp

theorem getLastUserContent_no_user (messages : List ProxyMain.PMsg)
    (h : ∀ m ∈ messages, m.role ≠ "user") :
    ProxyMain.getLastUserContent messages = "" := by
  unfold ProxyMain.getLastUserContent
  rcases hf : messages.reverse.find? (fun m => m.role == "user") with _ | m
  · rw [hf]
  · have h1 := List.find?_some hf
    have h2 := List.mem_reverse.mp (List.mem_of_find?_eq_some hf)
    simp at h1
    exact absurd h1 (h m h2)

/-- The proxy variant's `handleChatCompletions` front: whenever the
extracted user text is empty (in particular when no message has role
`"user"`), the request is answered with an HTTP 400 error response and
the upstream generator is never constructed — the behaviour the claim
describes, which the standalone copy (`claims_c7`) misses when the model
id is also unknown. -/
theorem handleChatCompletions_no_user (r : ℚ) (model? : Option String)
    (messages : List ProxyMain.PMsg)
    (h : ProxyMain.getLastUserContent messages = "") :
    ∃ msg, ProxyMain.handleChatCompletions r model? messages =
      ProxyMain.POutcome.errResp 400 msg := by
  unfold ProxyMain.handleChatCompletions
  by_cases he : messages.isEmpty
  · rw [if_pos he]
    exact ⟨_, rfl⟩
  · rw [if_neg he]
    rcases hres : ProxyMain.resolveModel r model? with e | res
    · exact ⟨e, rfl⟩
    · refine ⟨"No user message found in \x27messages\x27", ?_⟩
      simp [h]
